import Mathlib

/-!
Verification of the iCub push gym environment
(pybullet_robot_envs/envs/icub_envs/icub_push_gym_env.py).

The environment's task logic is embedded shallowly over exact rationals:
float64 arithmetic is modelled as exact rational arithmetic (the constants
0.03, 0.005, 0.1, 0.125, 0.25, 1000 appearing in the source are written as
the corresponding rationals), and for the one claim in which IEEE division by
zero matters the value space is extended with infinities and NaN (`NFloat`).

External collaborators that the file consumes through narrow interfaces
(the robot/world objects, the PyBullet simulation session, the
`goal_distance` and `scale_gym_data` utilities, NumPy's random generator)
are passed in as explicit inputs of the embedded functions, following the
collaborator contracts stated in the repository's design documentation.
-/

namespace PushEnv

/-- A 3-vector of exact rationals, modelling a NumPy array of three float64
components (a position or an Euler-angle triple). -/
structure Vec3 where
  x : ℚ
  y : ℚ
  z : ℚ
deriving DecidableEq, Repr

def Vec3.add (a b : Vec3) : Vec3 := ⟨a.x + b.x, a.y + b.y, a.z + b.z⟩

def Vec3.smul (c : ℚ) (a : Vec3) : Vec3 := ⟨c * a.x, c * a.y, c * a.z⟩

/-- A [low, high] pair, as used for per-axis workspace and rotation limits
and for per-element observation bounds. -/
structure Interval where
  lo : ℚ
  hi : ℚ
deriving DecidableEq, Repr

/-- Axis-aligned box limits: one interval per spatial dimension. -/
structure Box3 where
  x : Interval
  y : Interval
  z : Interval
deriving DecidableEq, Repr

/-- Membership of a value in a [low, high] interval. -/
def Interval.mem (I : Interval) (v : ℚ) : Prop := I.lo ≤ v ∧ v ≤ I.hi

instance (I : Interval) (v : ℚ) : Decidable (I.mem v) :=
  inferInstanceAs (Decidable (I.lo ≤ v ∧ v ≤ I.hi))

/-- A well-formed interval has its lower bound at or below its upper bound. -/
def Interval.wf (I : Interval) : Prop := I.lo ≤ I.hi

instance (I : Interval) : Decidable I.wf := inferInstanceAs (Decidable (I.lo ≤ I.hi))

def Box3.mem (b : Box3) (v : Vec3) : Prop := b.x.mem v.x ∧ b.y.mem v.y ∧ b.z.mem v.z

instance (b : Box3) (v : Vec3) : Decidable (b.mem v) :=
  inferInstanceAs (Decidable (_ ∧ _ ∧ _))

def Box3.wf (b : Box3) : Prop := b.x.wf ∧ b.y.wf ∧ b.z.wf

instance (b : Box3) : Decidable b.wf := inferInstanceAs (Decidable (_ ∧ _ ∧ _))

/-- One-dimensional clipping, as in `min(lim[1], max(lim[0], v))` in
`apply_action` and as in `np.clip(v, lo, hi)` in `sample_tg_pose`. -/
def clip (I : Interval) (v : ℚ) : ℚ := min I.hi (max I.lo v)

/-- Component-wise clipping of a 3-vector into a box. -/
def clipV (b : Box3) (v : Vec3) : Vec3 := ⟨clip b.x v.x, clip b.y v.y, clip b.z v.z⟩

lemma clip_mem (I : Interval) (h : I.wf) (v : ℚ) : I.mem (clip I v) := by
  refine ⟨le_min h (le_max_left _ _), min_le_left _ _⟩

lemma clipV_mem (b : Box3) (h : b.wf) (v : Vec3) : b.mem (clipV b v) :=
  ⟨clip_mem _ h.1 _, clip_mem _ h.2.1 _, clip_mem _ h.2.2 _⟩

/-- The value of `self._target_dist_min` set in the constructor (0.03). -/
def target_dist_min : ℚ := 3 / 100

/-- The value of `self._time_step` set in the constructor (1/240). -/
def timeStep : ℚ := 1 / 240

/-- Outcome of one call to `_termination` (source lines 327-342):
`done` is the returned flag (1.0 mapped to `true`, 0.0 to `false`),
`success` records whether the success branch (which prints and sets
`self.terminated = 1`) was taken, and `terminated` is the value of
`self.terminated` after the call.  The Euclidean object-target distance `d`
is computed by the external `goal_distance` utility from the world
observation and `self._tg_pose` and is passed in as an input. -/
structure TermResult where
  done : Bool
  success : Bool
  terminated : Bool
deriving DecidableEq, Repr

/-- Shallow embedding of `_termination`.  The success branch additionally
prints the final reward; printing has no effect on the episode state and is
not modelled. -/
def termination (d targetDistMin : ℚ) (terminated : Bool) (stepCounter maxSteps : ℕ) :
    TermResult :=
  if d ≤ targetDistMin then ⟨true, true, true⟩
  else if terminated || decide (maxSteps < stepCounter) then ⟨true, false, terminated⟩
  else ⟨false, false, terminated⟩

/-- C1: the termination predicate returns success-terminal exactly when the
object-target distance is at most 0.03 (boundary inclusive); success implies
terminal; otherwise it is terminal exactly when the episode is already
terminated or the step counter exceeds max_steps; and termination is sticky:
once a check returns terminal, every later check (step counter not reset,
hence only larger) still returns terminal. -/
theorem termination_spec :
    (∀ (d : ℚ) (t : Bool) (c M : ℕ),
        ((termination d target_dist_min t c M).success = true ↔ d ≤ 3 / 100) ∧
        ((termination d target_dist_min t c M).success = true →
          (termination d target_dist_min t c M).done = true)) ∧
    (∀ (d : ℚ) (t : Bool) (c M : ℕ), ¬ d ≤ 3 / 100 →
        ((termination d target_dist_min t c M).done = true ↔ (t = true ∨ M < c))) ∧
    (∀ (d d' : ℚ) (t : Bool) (c c' M : ℕ), c ≤ c' →
        (termination d target_dist_min t c M).done = true →
        (termination d' target_dist_min
          (termination d target_dist_min t c M).terminated c' M).done = true) := by
  refine ⟨?_, ?_, ?_⟩
  · intro d t c M
    constructor
    · unfold termination target_dist_min
      split_ifs with h1 h2 <;> simp [h1]
    · unfold termination target_dist_min
      split_ifs <;> simp
  · intro d t c M hd
    unfold termination target_dist_min
    rw [if_neg hd]
    split_ifs with h2 <;> simp_all
  · intro d d' t c c' M hcc hdone
    unfold termination target_dist_min at hdone ⊢
    by_cases h1 : d ≤ 3 / 100
    · rw [if_pos h1] at hdone ⊢
      by_cases h1' : d' ≤ 3 / 100
      · rw [if_pos h1']
      · rw [if_neg h1']
        simp
    · rw [if_neg h1] at hdone ⊢
      by_cases h2 : t = true ∨ M < c
      · by_cases h1' : d' ≤ 3 / 100
        · rw [if_pos h1']
        · rw [if_neg h1']
          have h2' : t = true ∨ M < c' := by
            rcases h2 with h | h
            · exact Or.inl h
            · exact Or.inr (lt_of_lt_of_le h hcc)
          rcases h2' with h | h <;> simp [h]
      · exfalso
        rw [if_neg ?hneg] at hdone
        · simp at hdone
        · simp only [Bool.or_eq_true, decide_eq_true_eq]
          exact h2

/-- Witness for the termination theorem: a concrete sticky-termination
instance (terminated at step counter 5 with max_steps 4, still terminated at
step counter 6 with a different distance). -/
theorem termination_spec_witness :
    (5 ≤ 6) ∧
    (termination 1 target_dist_min false 5 4).done = true ∧
    (termination 2 target_dist_min
      (termination 1 target_dist_min false 5 4).terminated 6 4).done = true := by
  refine ⟨by norm_num, ?_, ?_⟩
  · norm_num [termination, target_dist_min]
  · exact termination_spec.2.2 1 2 false 5 6 4 (by norm_num)
      (by norm_num [termination, target_dist_min])

/-- Exact-rational model of an IEEE-754 double: a finite value (rounding is
not modelled; all claims here involve only exactly representable
computations or sign/finiteness information), positive infinity, negative
infinity, or NaN.  Used where the source can divide by zero, which for NumPy
float64 values produces an infinity or NaN together with a runtime warning,
not an exception. -/
inductive NFloat
  | finite (q : ℚ)
  | inf
  | negInf
  | nan
deriving DecidableEq, Repr

def NFloat.neg : NFloat → NFloat
  | finite q => finite (-q)
  | inf => negInf
  | negInf => inf
  | nan => nan

def NFloat.add : NFloat → NFloat → NFloat
  | nan, _ => nan
  | _, nan => nan
  | finite a, finite b => finite (a + b)
  | finite _, inf => inf
  | finite _, negInf => negInf
  | inf, finite _ => inf
  | negInf, finite _ => negInf
  | inf, inf => inf
  | negInf, negInf => negInf
  | inf, negInf => nan
  | negInf, inf => nan

def NFloat.sub (a b : NFloat) : NFloat := a.add b.neg

def NFloat.mul : NFloat → NFloat → NFloat
  | nan, _ => nan
  | _, nan => nan
  | finite a, finite b => finite (a * b)
  | finite a, inf => if 0 < a then inf else if a < 0 then negInf else nan
  | finite a, negInf => if 0 < a then negInf else if a < 0 then inf else nan
  | inf, finite a => if 0 < a then inf else if a < 0 then negInf else nan
  | negInf, finite a => if 0 < a then negInf else if a < 0 then inf else nan
  | inf, inf => inf
  | inf, negInf => negInf
  | negInf, inf => negInf
  | negInf, negInf => inf

def NFloat.div : NFloat → NFloat → NFloat
  | nan, _ => nan
  | _, nan => nan
  | finite a, finite b =>
      if b = 0 then (if 0 < a then inf else if a < 0 then negInf else nan)
      else finite (a / b)
  | finite _, inf => finite 0
  | finite _, negInf => finite 0
  | inf, finite b => if 0 ≤ b then inf else negInf
  | negInf, finite b => if 0 ≤ b then negInf else inf
  | inf, inf => nan
  | inf, negInf => nan
  | negInf, inf => nan
  | negInf, negInf => nan

/-- IEEE comparison `a <= b` (false whenever an operand is NaN). -/
def NFloat.ble : NFloat → NFloat → Bool
  | nan, _ => false
  | _, nan => false
  | finite a, finite b => decide (a ≤ b)
  | finite _, inf => true
  | finite _, negInf => false
  | inf, finite _ => false
  | negInf, finite _ => true
  | inf, inf => true
  | negInf, negInf => true
  | inf, negInf => false
  | negInf, inf => true

/-- IEEE comparison `a < b` (false whenever an operand is NaN). -/
def NFloat.blt : NFloat → NFloat → Bool
  | nan, _ => false
  | _, nan => false
  | finite a, finite b => decide (a < b)
  | finite _, inf => true
  | finite _, negInf => false
  | inf, finite _ => false
  | negInf, finite _ => true
  | inf, inf => false
  | negInf, negInf => false
  | inf, negInf => false
  | negInf, inf => true

def NFloat.isFinite : NFloat → Bool
  | finite _ => true
  | _ => false

/-- Shallow embedding of `_compute_reward` (source lines 344-373).  The
distances `d1` (hand-object) and `d2` (object-target) are computed by the
external `goal_distance` utility from the robot and world observations and
are passed in, as are the normalizers `self._init_dist_hand_obj` and
`self._max_dist_obj_tg` recorded by `reset()`.  The guards
`self._reward_type is 0` and `is 1` compare small CPython-interned integers
and hence behave as equality tests.  The constants 0.125, 0.25, 0.1 and
1000.0 of the source appear as exact rationals. -/
def compute_reward (rewardType : ℕ) (targetDistMin : ℚ)
    (initDistHandObj maxDistObjTg d1 d2 : NFloat) : NFloat :=
  if rewardType = 0 then
    let reward := NFloat.sub (NFloat.neg d1) d2
    if NFloat.ble d2 (NFloat.finite targetDistMin) then
      NFloat.add reward (NFloat.finite 1000)
    else reward
  else if rewardType = 1 then
    let reward :=
      if NFloat.blt (NFloat.finite (1 / 10)) d1 then
        NFloat.mul (NFloat.finite (1 / 8))
          (NFloat.sub (NFloat.finite 1) (NFloat.div d1 initDistHandObj))
      else
        NFloat.add
          (NFloat.mul (NFloat.finite (1 / 8))
            (NFloat.sub (NFloat.finite 1) (NFloat.div d1 initDistHandObj)))
          (NFloat.mul (NFloat.finite (1 / 4))
            (NFloat.sub (NFloat.finite 1) (NFloat.div d2 maxDistObjTg)))
    if NFloat.ble d2 (NFloat.finite targetDistMin) then
      NFloat.add reward (NFloat.finite 1000)
    else reward
  else NFloat.finite 0

lemma NFloat.add_finite_finite (a b : ℚ) :
    NFloat.add (.finite a) (.finite b) = .finite (a + b) := rfl

lemma NFloat.sub_finite_finite (a b : ℚ) :
    NFloat.sub (.finite a) (.finite b) = .finite (a - b) := by
  show NFloat.finite (a + -b) = NFloat.finite (a - b)
  rw [← sub_eq_add_neg]

lemma NFloat.mul_finite_finite (a b : ℚ) :
    NFloat.mul (.finite a) (.finite b) = .finite (a * b) := rfl

lemma NFloat.div_finite_finite (a b : ℚ) (hb : b ≠ 0) :
    NFloat.div (.finite a) (.finite b) = .finite (a / b) := by
  simp [NFloat.div, hb]

lemma NFloat.ble_finite_finite (a b : ℚ) :
    NFloat.ble (.finite a) (.finite b) = decide (a ≤ b) := rfl

lemma NFloat.blt_finite_finite (a b : ℚ) :
    NFloat.blt (.finite a) (.finite b) = decide (a < b) := rfl

/-- C2: under the default normalized-staged reward policy (reward_type 1),
with finite distances and nonzero recorded normalizers, the reward is
0.125·(1 − d1/init) when d1 > 0.1, and additionally 0.25·(1 − d2/max) when
d1 ≤ 0.1, with 1000 added exactly when d2 ≤ 0.03, in either branch. -/
theorem compute_reward_normalized_staged (d1 d2 i0 m0 : ℚ)
    (hi : i0 ≠ 0) (hm : m0 ≠ 0) :
    compute_reward 1 target_dist_min (.finite i0) (.finite m0) (.finite d1) (.finite d2) =
      .finite ((if 1 / 10 < d1 then (1 / 8) * (1 - d1 / i0)
                else (1 / 8) * (1 - d1 / i0) + (1 / 4) * (1 - d2 / m0)) +
               (if d2 ≤ 3 / 100 then 1000 else 0)) := by
  unfold compute_reward target_dist_min
  rw [if_neg one_ne_zero, if_pos rfl]
  simp only [NFloat.div_finite_finite _ _ hi, NFloat.div_finite_finite _ _ hm,
    NFloat.sub_finite_finite, NFloat.mul_finite_finite, NFloat.blt_finite_finite,
    NFloat.ble_finite_finite, NFloat.add_finite_finite, decide_eq_true_eq]
  split_ifs with h2 h1 h1 <;> simp only [NFloat.add_finite_finite, add_zero]

/-- Witness for the normalized-staged reward theorem: the spec's own example,
initial hand-object distance 1, d1 = 0.5 (reach phase), d2 = 0.5 (no bonus),
giving reward 0.0625. -/
theorem compute_reward_normalized_staged_witness :
    ((1 : ℚ) ≠ 0) ∧
    compute_reward 1 target_dist_min (.finite 1) (.finite 1)
      (.finite (1 / 2)) (.finite (1 / 2)) = .finite (1 / 16) := by
  refine ⟨one_ne_zero, ?_⟩
  rw [compute_reward_normalized_staged (1 / 2) (1 / 2) 1 1 one_ne_zero one_ne_zero]
  norm_num

lemma NFloat.isFinite_add_right_finite (x : NFloat) (q : ℚ) :
    (NFloat.add x (.finite q)).isFinite = x.isFinite := by
  cases x <;> rfl

lemma NFloat.isFinite_add_left_false (x y : NFloat) (hx : x.isFinite = false) :
    (NFloat.add x y).isFinite = false := by
  cases x <;> cases y <;> simp_all [NFloat.add, NFloat.isFinite]

lemma NFloat.isFinite_mul_pos (q : ℚ) (x : NFloat) (hq : 0 < q) :
    (NFloat.mul (.finite q) x).isFinite = x.isFinite := by
  cases x <;> simp [NFloat.mul, NFloat.isFinite, hq]

lemma NFloat.isFinite_sub_finite (q : ℚ) (x : NFloat) :
    (NFloat.sub (.finite q) x).isFinite = x.isFinite := by
  cases x <;> simp [NFloat.sub, NFloat.add, NFloat.neg, NFloat.isFinite]

lemma NFloat.isFinite_div_zero (a : ℚ) :
    (NFloat.div (.finite a) (.finite 0)).isFinite = false := by
  simp only [NFloat.div, if_pos rfl]
  split_ifs <;> rfl

/-- C10 counterexample: with a recorded initial hand-object distance of zero
(and all other quantities 1), the normalized-staged policy returns negative
infinity — an infinite reward value, silently — and the sparse policy
returns the ordinary finite reward −2; neither surfaces an error. -/
theorem reward_zero_init_cex :
    compute_reward 1 target_dist_min (.finite 0) (.finite 1) (.finite 1) (.finite 1) =
      NFloat.negInf ∧
    compute_reward 0 target_dist_min (.finite 0) (.finite 1) (.finite 1) (.finite 1) =
      NFloat.finite (-2) := by
  constructor
  · norm_num [compute_reward, target_dist_min, NFloat.div, NFloat.sub, NFloat.add,
      NFloat.neg, NFloat.mul, NFloat.blt, NFloat.ble, decide_eq_true_eq]
  · norm_num [compute_reward, target_dist_min, NFloat.sub, NFloat.add, NFloat.neg,
      NFloat.ble, decide_eq_true_eq]

/-- C10 (amended): a zero recorded initial hand-object distance is not
surfaced as an error by reward computation: under the normalized-staged
policy the IEEE division by zero propagates to a silently returned
non-finite reward (±infinity or NaN) for every current distance pair, and
the sparse policy ignores the recorded initial distances entirely and
returns a finite reward. -/
theorem reward_zero_init_silent :
    (∀ d1 d2 m0 : ℚ,
       (compute_reward 1 target_dist_min (.finite 0) (.finite m0)
          (.finite d1) (.finite d2)).isFinite = false) ∧
    (∀ i0 m0 d1 d2 : ℚ,
       (compute_reward 0 target_dist_min (.finite i0) (.finite m0)
          (.finite d1) (.finite d2)).isFinite = true) := by
  constructor
  · intro d1 d2 m0
    have hA : (NFloat.mul (NFloat.finite (1 / 8))
        (NFloat.sub (NFloat.finite 1)
          (NFloat.div (NFloat.finite d1) (NFloat.finite 0)))).isFinite = false := by
      rw [NFloat.isFinite_mul_pos _ _ (by norm_num), NFloat.isFinite_sub_finite,
        NFloat.isFinite_div_zero]
    cases hblt : NFloat.blt (NFloat.finite (1 / 10)) (NFloat.finite d1) <;>
      cases hble : NFloat.ble (NFloat.finite d2) (NFloat.finite target_dist_min) <;>
        simp only [compute_reward, hblt, hble, Bool.false_eq_true, if_false, if_true,
          Nat.one_ne_zero, eq_self_iff_true, NFloat.isFinite_add_right_finite] <;>
        first
          | exact hA
          | exact NFloat.isFinite_add_left_false _ _ hA
  · intro i0 m0 d1 d2
    simp only [compute_reward, eq_self_iff_true, if_true]
    split_ifs <;> rfl

/-- The agent action held by `apply_action`, in the three control
configurations fixed at construction by `use_IK` and `control_orientation`
(which also determine `get_action_dim()`): 3 task-space position deltas
(inverse kinematics, orientation not controlled), 3 position plus 3
orientation deltas (inverse kinematics with orientation control), or one
delta per controlled joint (direct joint control).  The NumPy array holding
the action is mutated in place by the `*=` statements of the loop body, so
the action value is part of the loop state. -/
inductive ActionVal
  | ik3 (a : Vec3)
  | ik6 (ap ao : Vec3)
  | joints (vs : List ℚ)
deriving DecidableEq, Repr

/-- Externally visible effects of one `apply_action` call, in order:
`dispatch` models `self._robot.apply_action(new_action)` with the dispatched
target values, `simStep` models `p.stepSimulation(...)`, and `sleep` models a
`time.sleep(...)` call with its wall-clock duration. -/
inductive Event
  | sleep (duration : ℚ)
  | dispatch (target : List ℚ)
  | simStep
deriving DecidableEq, Repr

/-- Construction-time configuration read by `apply_action`:
`self._action_repeat`, `self._max_steps`, `self._renders`,
`self._target_dist_min`, the robot's workspace box
(`self._robot.get_workspace()`, already narrowed to the table plane) and
rotation-limit box (`self._robot.get_rotation_lim()`). -/
structure Config where
  actionRepeat : ℕ
  maxSteps : ℕ
  renders : Bool
  targetDistMin : ℚ
  ws : Box3
  rotLim : Box3
deriving DecidableEq, Repr

/-- Mutable episode state read and written by `apply_action`: the in-place
mutated action array, the persisted hand pose `self._hand_pose` (position,
and orientation when controlled), `self.terminated`, and
`self._env_step_counter`. -/
structure LoopState where
  act : ActionVal
  handPos : Vec3
  handOrn : Vec3
  terminated : Bool
  counter : ℕ
deriving DecidableEq, Repr

/-- Modelled from the spec: the `scale_gym_data` utility (not part of this
file's source) is an element-wise affine rescaling from the normalized range
[-1, 1] into a declared [lo, hi] bound; on the symmetric [-1, 1] action
space declared by `create_gym_spaces` it is the identity. -/
def rescale1 (lo hi v : ℚ) : ℚ := lo + (v + 1) * (hi - lo) / 2

def mapActionVal (f : ℚ → ℚ) : ActionVal → ActionVal
  | .ik3 a => .ik3 ⟨f a.x, f a.y, f a.z⟩
  | .ik6 ap ao => .ik6 ⟨f ap.x, f ap.y, f ap.z⟩ ⟨f ao.x, f ao.y, f ao.z⟩
  | .joints vs => .joints (vs.map f)

lemma rescale1_sym_id (v : ℚ) : rescale1 (-1) 1 v = v := by
  unfold rescale1
  ring

lemma mapActionVal_rescale_sym (a : ActionVal) :
    mapActionVal (rescale1 (-1) 1) a = a := by
  have h : ∀ vs : List ℚ, vs.map (rescale1 (-1) 1) = vs := by
    intro vs
    induction vs with
    | nil => rfl
    | cons v t ih => simp [rescale1_sym_id, ih]
  cases a <;> simp [mapActionVal, rescale1_sym_id, h]

/-- One iteration of the `for _ in range(self._action_repeat)` loop of
`apply_action` (source lines 224-269).  Inputs from external collaborators:
`jointObs` is the controlled-joint tail of the robot observation read at the
top of the iteration (used only under direct joint control), and `d` is the
object-target Euclidean distance that the `_termination()` call at the end
of the iteration computes from the freshly stepped world.  Returns the
updated state, the result of the `_termination()` check (a `true` causes the
`break` before the step-counter increment), and the emitted effects.  The
in-place `*=` statements are modelled by storing the scaled action back into
the state. -/
def repeatBody (cfg : Config) (jointObs : List ℚ) (d : ℚ) (st : LoopState) :
    LoopState × Bool × List Event :=
  match st.act with
  | .ik3 a =>
      let a2 := Vec3.smul (1 / 200) a
      let newPos := clipV cfg.ws (Vec3.add st.handPos a2)
      let tr := termination d cfg.targetDistMin st.terminated st.counter cfg.maxSteps
      (⟨.ik3 a2, newPos, st.handOrn, tr.terminated, st.counter⟩, tr.done,
        [.dispatch [newPos.x, newPos.y, newPos.z], .simStep, .sleep timeStep])
  | .ik6 ap ao =>
      let ap2 := Vec3.smul (1 / 100) ap
      let ao2 := Vec3.smul (1 / 50) ao
      let newOrn := clipV cfg.rotLim (Vec3.add st.handOrn ao2)
      let newPos := clipV cfg.ws (Vec3.add st.handPos ap2)
      let tr := termination d cfg.targetDistMin st.terminated st.counter cfg.maxSteps
      (⟨.ik6 ap2 ao2, newPos, newOrn, tr.terminated, st.counter⟩, tr.done,
        [.dispatch [newPos.x, newPos.y, newPos.z, newOrn.x, newOrn.y, newOrn.z],
         .simStep, .sleep timeStep])
  | .joints vs =>
      let vs2 := vs.map (fun q => q * (1 / 20))
      let tgt := List.zipWith (fun a b => a + b) jointObs vs2
      let tr := termination d cfg.targetDistMin st.terminated st.counter cfg.maxSteps
      (⟨.joints vs2, st.handPos, st.handOrn, tr.terminated, st.counter⟩, tr.done,
        [.dispatch tgt, .simStep, .sleep timeStep])

/-- The repeat loop of `apply_action`: runs up to `fuel` iterations starting
at iteration index `i` (the index selects the per-iteration external inputs
`ds i` and `js i`), breaking early when `_termination()` returns terminal —
in which case the `self._env_step_counter += 1` at the bottom of the loop
body is skipped — and otherwise incrementing the step counter after each
iteration. -/
def applyActionLoop (cfg : Config) (ds : ℕ → ℚ) (js : ℕ → List ℚ) :
    ℕ → ℕ → LoopState → LoopState × List Event
  | 0, _, st => (st, [])
  | Nat.succ fuel, i, st =>
      let out := repeatBody cfg (js i) (ds i) st
      if out.2.1 then (out.1, out.2.2)
      else
        let st2 : LoopState :=
          ⟨out.1.act, out.1.handPos, out.1.handOrn, out.1.terminated, out.1.counter + 1⟩
        let rest := applyActionLoop cfg ds js fuel (i + 1) st2
        (rest.1, out.2.2 ++ rest.2)

/-- Shallow embedding of `apply_action` (source lines 205-269).
`timeSpent` is the externally measured wall-clock time since the previous
frame (`time.time() - self._last_frame_time`), used only by the
render-pacing branch.  The incoming action is first passed through
`scale_gym_data` on the declared symmetric action space, then the repeat
loop runs `self._action_repeat` times or until termination. -/
def applyAction (cfg : Config) (timeSpent : ℚ) (ds : ℕ → ℚ) (js : ℕ → List ℚ)
    (st : LoopState) : LoopState × List Event :=
  let pacing : List Event :=
    if cfg.renders then
      let timeToSleep := (cfg.actionRepeat : ℚ) * timeStep - timeSpent
      if 0 < timeToSleep then [.sleep timeToSleep] else []
    else []
  let st0 : LoopState :=
    ⟨mapActionVal (rescale1 (-1) 1) st.act, st.handPos, st.handOrn, st.terminated, st.counter⟩
  let out := applyActionLoop cfg ds js cfg.actionRepeat 0 st0
  (out.1, pacing ++ out.2)

def Event.isSleep : Event → Bool
  | .sleep _ => true
  | _ => false

def Event.isSimStep : Event → Bool
  | .simStep => true
  | _ => false

lemma Vec3.smul_smul (c c' : ℚ) (a : Vec3) :
    Vec3.smul c (Vec3.smul c' a) = Vec3.smul (c * c') a := by
  simp [Vec3.smul]
  refine ⟨by ring, by ring, by ring⟩

lemma Vec3.one_smul (a : Vec3) : Vec3.smul 1 a = a := by
  simp [Vec3.smul]

lemma termination_success_eq (d tdm : ℚ) (t : Bool) (c M : ℕ) (hd : d ≤ tdm) :
    termination d tdm t c M = ⟨true, true, true⟩ := by
  unfold termination
  rw [if_pos hd]

lemma termination_not_done (d tdm : ℚ) (c M : ℕ) (hd : ¬ d ≤ tdm) (hc : c ≤ M) :
    termination d tdm false c M = ⟨false, false, false⟩ := by
  unfold termination
  rw [if_neg hd, if_neg (by simp [Nat.not_lt, hc])]

lemma repeatBody_counter (cfg : Config) (js : List ℚ) (d : ℚ) (st : LoopState) :
    (repeatBody cfg js d st).1.counter = st.counter := by
  obtain ⟨a, hp, ho, t, c⟩ := st
  cases a <;> rfl

lemma repeatBody_done (cfg : Config) (js : List ℚ) (d : ℚ) (st : LoopState) :
    (repeatBody cfg js d st).2.1 =
      (termination d cfg.targetDistMin st.terminated st.counter cfg.maxSteps).done := by
  obtain ⟨a, hp, ho, t, c⟩ := st
  cases a <;> rfl

lemma repeatBody_terminated (cfg : Config) (js : List ℚ) (d : ℚ) (st : LoopState) :
    (repeatBody cfg js d st).1.terminated =
      (termination d cfg.targetDistMin st.terminated st.counter cfg.maxSteps).terminated := by
  obtain ⟨a, hp, ho, t, c⟩ := st
  cases a <;> rfl

lemma repeatBody_events (cfg : Config) (js : List ℚ) (d : ℚ) (st : LoopState) :
    ∃ tgt, (repeatBody cfg js d st).2.2 =
      [.dispatch tgt, .simStep, .sleep timeStep] := by
  obtain ⟨a, hp, ho, t, c⟩ := st
  cases a <;> exact ⟨_, rfl⟩

lemma repeatBody_ik3_act (cfg : Config) (js : List ℚ) (d : ℚ) (st : LoopState) (a : Vec3)
    (h : st.act = .ik3 a) :
    (repeatBody cfg js d st).1.act = .ik3 (Vec3.smul (1 / 200) a) := by
  obtain ⟨a0, hp, ho, t, c⟩ := st
  cases h
  rfl

lemma repeatBody_ik3_handPos (cfg : Config) (js : List ℚ) (d : ℚ) (st : LoopState) (a : Vec3)
    (h : st.act = .ik3 a) :
    (repeatBody cfg js d st).1.handPos =
      clipV cfg.ws (Vec3.add st.handPos (Vec3.smul (1 / 200) a)) := by
  obtain ⟨a0, hp, ho, t, c⟩ := st
  cases h
  rfl

lemma repeatBody_ik6_act (cfg : Config) (js : List ℚ) (d : ℚ) (st : LoopState) (ap ao : Vec3)
    (h : st.act = .ik6 ap ao) :
    (repeatBody cfg js d st).1.act =
      .ik6 (Vec3.smul (1 / 100) ap) (Vec3.smul (1 / 50) ao) := by
  obtain ⟨a0, hp, ho, t, c⟩ := st
  cases h
  rfl

lemma repeatBody_ik6_handPos (cfg : Config) (js : List ℚ) (d : ℚ) (st : LoopState) (ap ao : Vec3)
    (h : st.act = .ik6 ap ao) :
    (repeatBody cfg js d st).1.handPos =
      clipV cfg.ws (Vec3.add st.handPos (Vec3.smul (1 / 100) ap)) := by
  obtain ⟨a0, hp, ho, t, c⟩ := st
  cases h
  rfl

lemma repeatBody_ik6_handOrn (cfg : Config) (js : List ℚ) (d : ℚ) (st : LoopState) (ap ao : Vec3)
    (h : st.act = .ik6 ap ao) :
    (repeatBody cfg js d st).1.handOrn =
      clipV cfg.rotLim (Vec3.add st.handOrn (Vec3.smul (1 / 50) ao)) := by
  obtain ⟨a0, hp, ho, t, c⟩ := st
  cases h
  rfl

lemma loop_noterm (cfg : Config) (ds : ℕ → ℚ) (js : ℕ → List ℚ) :
    ∀ (r i : ℕ) (st : LoopState), st.terminated = false →
      (∀ j, j < r → ¬ ds (i + j) ≤ cfg.targetDistMin) →
      st.counter + r ≤ cfg.maxSteps + 1 →
      (applyActionLoop cfg ds js r i st).1.counter = st.counter + r ∧
      (applyActionLoop cfg ds js r i st).1.terminated = false := by
  intro r
  induction r with
  | zero =>
      intro i st ht hd hc
      simpa [applyActionLoop] using ht
  | succ r ih =>
      intro i st ht hd hc
      have hd0 : ¬ ds (i + 0) ≤ cfg.targetDistMin := hd 0 (Nat.succ_pos r)
      have hc0 : st.counter ≤ cfg.maxSteps := by omega
      have hterm : termination (ds i) cfg.targetDistMin st.terminated st.counter cfg.maxSteps
          = ⟨false, false, false⟩ := by
        rw [ht]
        exact termination_not_done _ _ _ _ (by simpa using hd0) hc0
      have hdone : (repeatBody cfg (js i) (ds i) st).2.1 = false := by
        rw [repeatBody_done, hterm]
      simp only [applyActionLoop, hdone, Bool.false_eq_true, if_false]
      rw [repeatBody_counter]
      have h2 := ih (i + 1)
        ⟨(repeatBody cfg (js i) (ds i) st).1.act,
         (repeatBody cfg (js i) (ds i) st).1.handPos,
         (repeatBody cfg (js i) (ds i) st).1.handOrn,
         (repeatBody cfg (js i) (ds i) st).1.terminated,
         st.counter + 1⟩
        (by
          show (repeatBody cfg (js i) (ds i) st).1.terminated = false
          rw [repeatBody_terminated, hterm])
        (by
          intro j hj
          have h3 := hd (j + 1) (by omega)
          have h4 : i + (j + 1) = i + 1 + j := by omega
          rwa [h4] at h3)
        (by
          show st.counter + 1 + r ≤ cfg.maxSteps + 1
          omega)
      refine ⟨?_, h2.2⟩
      rw [h2.1]
      show st.counter + 1 + r = st.counter + (r + 1)
      omega

lemma loop_term (cfg : Config) (ds : ℕ → ℚ) (js : ℕ → List ℚ) :
    ∀ (k r i : ℕ) (st : LoopState), st.terminated = false → k < r →
      (∀ j, j < k → ¬ ds (i + j) ≤ cfg.targetDistMin) →
      ds (i + k) ≤ cfg.targetDistMin →
      st.counter + k ≤ cfg.maxSteps + 1 →
      (applyActionLoop cfg ds js r i st).1.counter = st.counter + k ∧
      (applyActionLoop cfg ds js r i st).1.terminated = true := by
  intro k
  induction k with
  | zero =>
      intro r i st ht hkr hdlt hdk hc
      obtain ⟨r', rfl⟩ : ∃ r', r = r' + 1 := ⟨r - 1, by omega⟩
      have hterm : termination (ds i) cfg.targetDistMin st.terminated st.counter cfg.maxSteps
          = ⟨true, true, true⟩ :=
        termination_success_eq _ _ _ _ _ (by simpa using hdk)
      have hdone : (repeatBody cfg (js i) (ds i) st).2.1 = true := by
        rw [repeatBody_done, hterm]
      simp only [applyActionLoop, hdone, if_true]
      refine ⟨?_, ?_⟩
      · rw [repeatBody_counter]
        omega
      · rw [repeatBody_terminated, hterm]
  | succ k ih =>
      intro r i st ht hkr hdlt hdk hc
      obtain ⟨r', rfl⟩ : ∃ r', r = r' + 1 := ⟨r - 1, by omega⟩
      have hd0 : ¬ ds (i + 0) ≤ cfg.targetDistMin := hdlt 0 (Nat.succ_pos k)
      have hc0 : st.counter ≤ cfg.maxSteps := by omega
      have hterm : termination (ds i) cfg.targetDistMin st.terminated st.counter cfg.maxSteps
          = ⟨false, false, false⟩ := by
        rw [ht]
        exact termination_not_done _ _ _ _ (by simpa using hd0) hc0
      have hdone : (repeatBody cfg (js i) (ds i) st).2.1 = false := by
        rw [repeatBody_done, hterm]
      simp only [applyActionLoop, hdone, Bool.false_eq_true, if_false]
      rw [repeatBody_counter]
      have h2 := ih r' (i + 1)
        ⟨(repeatBody cfg (js i) (ds i) st).1.act,
         (repeatBody cfg (js i) (ds i) st).1.handPos,
         (repeatBody cfg (js i) (ds i) st).1.handOrn,
         (repeatBody cfg (js i) (ds i) st).1.terminated,
         st.counter + 1⟩
        (by
          show (repeatBody cfg (js i) (ds i) st).1.terminated = false
          rw [repeatBody_terminated, hterm])
        (by omega)
        (by
          intro j hj
          have h3 := hdlt (j + 1) (by omega)
          have h4 : i + (j + 1) = i + 1 + j := by omega
          rwa [h4] at h3)
        (by
          have h4 : i + (k + 1) = i + 1 + k := by omega
          rwa [h4] at hdk)
        (by
          show st.counter + 1 + k ≤ cfg.maxSteps + 1
          omega)
      refine ⟨?_, h2.2⟩
      rw [h2.1]
      show st.counter + 1 + k = st.counter + (k + 1)
      omega

lemma loop_sleep_events (cfg : Config) (ds : ℕ → ℚ) (js : ℕ → List ℚ) :
    ∀ (r i : ℕ) (st : LoopState),
      (applyActionLoop cfg ds js r i st).2.filter Event.isSleep =
        List.replicate
          ((applyActionLoop cfg ds js r i st).2.filter Event.isSimStep).length
          (Event.sleep timeStep) := by
  intro r
  induction r with
  | zero =>
      intro i st
      simp [applyActionLoop]
  | succ r ih =>
      intro i st
      obtain ⟨tgt, hev⟩ := repeatBody_events cfg (js i) (ds i) st
      simp only [applyActionLoop]
      cases hdone : (repeatBody cfg (js i) (ds i) st).2.1
      · simp only [Bool.false_eq_true, if_false, hev, List.filter_append,
          List.length_append]
        rw [ih]
        simp only [List.filter, Event.isSleep, Event.isSimStep]
        simp [List.replicate_add, List.replicate_succ, Nat.add_comm]
      · simp only [if_true, hev]
        simp [List.filter, Event.isSleep, Event.isSimStep]

lemma loop_mem_ik3 (cfg : Config) (ds : ℕ → ℚ) (js : ℕ → List ℚ) (hws : cfg.ws.wf) :
    ∀ (r i : ℕ) (st : LoopState) (a : Vec3), st.act = .ik3 a →
      cfg.ws.mem st.handPos →
      cfg.ws.mem (applyActionLoop cfg ds js r i st).1.handPos := by
  intro r
  induction r with
  | zero =>
      intro i st a ha hm
      simpa [applyActionLoop] using hm
  | succ r ih =>
      intro i st a ha hm
      simp only [applyActionLoop]
      have hmem : cfg.ws.mem (repeatBody cfg (js i) (ds i) st).1.handPos := by
        rw [repeatBody_ik3_handPos cfg (js i) (ds i) st a ha]
        exact clipV_mem _ hws _
      cases hdone : (repeatBody cfg (js i) (ds i) st).2.1
      · simp only [Bool.false_eq_true, if_false]
        exact ih (i + 1) _ (Vec3.smul (1 / 200) a)
          (repeatBody_ik3_act cfg (js i) (ds i) st a ha) hmem
      · simp only [if_true]
        exact hmem

lemma loop_mem_ik6 (cfg : Config) (ds : ℕ → ℚ) (js : ℕ → List ℚ)
    (hws : cfg.ws.wf) (hrot : cfg.rotLim.wf) :
    ∀ (r i : ℕ) (st : LoopState) (ap ao : Vec3), st.act = .ik6 ap ao →
      cfg.ws.mem st.handPos → cfg.rotLim.mem st.handOrn →
      cfg.ws.mem (applyActionLoop cfg ds js r i st).1.handPos ∧
      cfg.rotLim.mem (applyActionLoop cfg ds js r i st).1.handOrn := by
  intro r
  induction r with
  | zero =>
      intro i st ap ao ha hm ho
      simp only [applyActionLoop]
      exact ⟨hm, ho⟩
  | succ r ih =>
      intro i st ap ao ha hm ho
      simp only [applyActionLoop]
      have hmem : cfg.ws.mem (repeatBody cfg (js i) (ds i) st).1.handPos := by
        rw [repeatBody_ik6_handPos cfg (js i) (ds i) st ap ao ha]
        exact clipV_mem _ hws _
      have homem : cfg.rotLim.mem (repeatBody cfg (js i) (ds i) st).1.handOrn := by
        rw [repeatBody_ik6_handOrn cfg (js i) (ds i) st ap ao ha]
        exact clipV_mem _ hrot _
      cases hdone : (repeatBody cfg (js i) (ds i) st).2.1
      · simp only [Bool.false_eq_true, if_false]
        exact ih (i + 1) _ (Vec3.smul (1 / 100) ap) (Vec3.smul (1 / 50) ao)
          (repeatBody_ik6_act cfg (js i) (ds i) st ap ao ha) hmem homem
      · simp only [if_true]
        exact ⟨hmem, homem⟩

lemma loop_act_ik3 (cfg : Config) (ds : ℕ → ℚ) (js : ℕ → List ℚ) :
    ∀ (r i : ℕ) (st : LoopState) (a : Vec3), st.act = .ik3 a → st.terminated = false →
      (∀ j, j < r → ¬ ds (i + j) ≤ cfg.targetDistMin) →
      st.counter + r ≤ cfg.maxSteps + 1 →
      (applyActionLoop cfg ds js r i st).1.act =
        .ik3 (Vec3.smul ((1 / 200) ^ r) a) := by
  intro r
  induction r with
  | zero =>
      intro i st a ha ht hd hc
      simp only [applyActionLoop, pow_zero, Vec3.one_smul]
      exact ha
  | succ r ih =>
      intro i st a ha ht hd hc
      have hd0 : ¬ ds (i + 0) ≤ cfg.targetDistMin := hd 0 (Nat.succ_pos r)
      have hc0 : st.counter ≤ cfg.maxSteps := by omega
      have hterm : termination (ds i) cfg.targetDistMin st.terminated st.counter cfg.maxSteps
          = ⟨false, false, false⟩ := by
        rw [ht]
        exact termination_not_done _ _ _ _ (by simpa using hd0) hc0
      have hdone : (repeatBody cfg (js i) (ds i) st).2.1 = false := by
        rw [repeatBody_done, hterm]
      simp only [applyActionLoop, hdone, Bool.false_eq_true, if_false]
      rw [repeatBody_counter]
      have h2 := ih (i + 1)
        ⟨(repeatBody cfg (js i) (ds i) st).1.act,
         (repeatBody cfg (js i) (ds i) st).1.handPos,
         (repeatBody cfg (js i) (ds i) st).1.handOrn,
         (repeatBody cfg (js i) (ds i) st).1.terminated,
         st.counter + 1⟩
        (Vec3.smul (1 / 200) a)
        (by
          show (repeatBody cfg (js i) (ds i) st).1.act = _
          exact repeatBody_ik3_act cfg (js i) (ds i) st a ha)
        (by
          show (repeatBody cfg (js i) (ds i) st).1.terminated = false
          rw [repeatBody_terminated, hterm])
        (by
          intro j hj
          have h3 := hd (j + 1) (by omega)
          have h4 : i + (j + 1) = i + 1 + j := by omega
          rwa [h4] at h3)
        (by
          show st.counter + 1 + r ≤ cfg.maxSteps + 1
          omega)
      rw [h2, Vec3.smul_smul]
      have h5 : (1 / 200 : ℚ) ^ r * (1 / 200) = (1 / 200) ^ (r + 1) := by
        rw [pow_succ]
      rw [h5]


lemma loop_mem_ik3_run (cfg : Config) (ds : ℕ → ℚ) (js : ℕ → List ℚ) (hws : cfg.ws.wf)
    (r i : ℕ) (st : LoopState) (a : Vec3) (ha : st.act = .ik3 a) :
    cfg.ws.mem (applyActionLoop cfg ds js (r + 1) i st).1.handPos := by
  simp only [applyActionLoop]
  have hmem : cfg.ws.mem (repeatBody cfg (js i) (ds i) st).1.handPos := by
    rw [repeatBody_ik3_handPos cfg (js i) (ds i) st a ha]
    exact clipV_mem _ hws _
  cases hdone : (repeatBody cfg (js i) (ds i) st).2.1
  · simp only [Bool.false_eq_true, if_false]
    exact loop_mem_ik3 cfg ds js hws r (i + 1) _ (Vec3.smul (1 / 200) a)
      (repeatBody_ik3_act cfg (js i) (ds i) st a ha) hmem
  · simp only [if_true]
    exact hmem

lemma loop_mem_ik6_run (cfg : Config) (ds : ℕ → ℚ) (js : ℕ → List ℚ)
    (hws : cfg.ws.wf) (hrot : cfg.rotLim.wf)
    (r i : ℕ) (st : LoopState) (ap ao : Vec3) (ha : st.act = .ik6 ap ao) :
    cfg.ws.mem (applyActionLoop cfg ds js (r + 1) i st).1.handPos ∧
    cfg.rotLim.mem (applyActionLoop cfg ds js (r + 1) i st).1.handOrn := by
  simp only [applyActionLoop]
  have hmem : cfg.ws.mem (repeatBody cfg (js i) (ds i) st).1.handPos := by
    rw [repeatBody_ik6_handPos cfg (js i) (ds i) st ap ao ha]
    exact clipV_mem _ hws _
  have homem : cfg.rotLim.mem (repeatBody cfg (js i) (ds i) st).1.handOrn := by
    rw [repeatBody_ik6_handOrn cfg (js i) (ds i) st ap ao ha]
    exact clipV_mem _ hrot _
  cases hdone : (repeatBody cfg (js i) (ds i) st).2.1
  · simp only [Bool.false_eq_true, if_false]
    exact loop_mem_ik6 cfg ds js hws hrot r (i + 1) _
      (Vec3.smul (1 / 100) ap) (Vec3.smul (1 / 50) ao)
      (repeatBody_ik6_act cfg (js i) (ds i) st ap ao ha) hmem homem
  · simp only [if_true]
    exact ⟨hmem, homem⟩

/-- A concrete unit workspace box used in concrete instantiations. -/
def unitBox : Box3 := ⟨⟨-1, 1⟩, ⟨-1, 1⟩, ⟨-1, 1⟩⟩

/-- C3 counterexample: with action_repeat 1 and the object already within the
success threshold of the target (distance 0), the single repeat executes (one
physics step happens) and fires the termination check, but the step counter is
not incremented: the break precedes the increment, so the counter stays 0
where the claim requires it to rise by 1. -/
theorem step_counter_terminating_repeat_cex :
    (applyAction ⟨1, 5, false, 3 / 100, unitBox, unitBox⟩ 0 (fun _ => 0) (fun _ => [])
        ⟨.ik3 ⟨1, 0, 0⟩, ⟨0, 0, 0⟩, ⟨0, 0, 0⟩, false, 0⟩).1.counter = 0 ∧
    (applyAction ⟨1, 5, false, 3 / 100, unitBox, unitBox⟩ 0 (fun _ => 0) (fun _ => [])
        ⟨.ik3 ⟨1, 0, 0⟩, ⟨0, 0, 0⟩, ⟨0, 0, 0⟩, false, 0⟩).1.terminated = true ∧
    ((applyAction ⟨1, 5, false, 3 / 100, unitBox, unitBox⟩ 0 (fun _ => 0) (fun _ => [])
        ⟨.ik3 ⟨1, 0, 0⟩, ⟨0, 0, 0⟩, ⟨0, 0, 0⟩, false, 0⟩).2.filter Event.isSimStep).length
      = 1 := by
  have h := loop_term ⟨1, 5, false, 3 / 100, unitBox, unitBox⟩ (fun _ => 0) (fun _ => [])
      0 1 0
      ⟨mapActionVal (rescale1 (-1) 1) (ActionVal.ik3 ⟨1, 0, 0⟩), ⟨0, 0, 0⟩, ⟨0, 0, 0⟩,
        false, 0⟩
      rfl Nat.one_pos
      (by intro j hj; omega)
      (by show (0 : ℚ) ≤ 3 / 100; norm_num)
      (by show 0 + 0 ≤ 5 + 1; omega)
  refine ⟨h.1.trans (by rfl), h.2, ?_⟩
  have hdone : (repeatBody ⟨1, 5, false, 3 / 100, unitBox, unitBox⟩ [] 0
      ⟨mapActionVal (rescale1 (-1) 1) (ActionVal.ik3 ⟨1, 0, 0⟩), ⟨0, 0, 0⟩, ⟨0, 0, 0⟩,
        false, 0⟩).2.1 = true := by
    rw [repeatBody_done]
    rw [termination_success_eq _ _ _ _ _ (by show (0 : ℚ) ≤ 3 / 100; norm_num)]
  obtain ⟨tgt, hev⟩ := repeatBody_events ⟨1, 5, false, 3 / 100, unitBox, unitBox⟩ [] 0
      ⟨mapActionVal (rescale1 (-1) 1) (ActionVal.ik3 ⟨1, 0, 0⟩), ⟨0, 0, 0⟩, ⟨0, 0, 0⟩,
        false, 0⟩
  show ((applyActionLoop ⟨1, 5, false, 3 / 100, unitBox, unitBox⟩ (fun _ => 0) (fun _ => [])
      1 0 ⟨mapActionVal (rescale1 (-1) 1) (ActionVal.ik3 ⟨1, 0, 0⟩), ⟨0, 0, 0⟩, ⟨0, 0, 0⟩,
        false, 0⟩).2.filter Event.isSimStep).length = 1
  simp only [applyActionLoop, hdone, if_true, hev]
  simp [Event.isSimStep, List.filter]

/-- C3 (amended): the step counter is incremented once per completed repeat
except the repeat on which the termination check fires, because the break
precedes the increment.  A call that runs its repeats without termination
raises the counter by exactly action_repeat; a call on which the termination
check first fires on the (k+1)-st executed repeat raises it by exactly k and
leaves the episode terminated. -/
theorem step_counter_per_repeat :
    (∀ (cfg : Config) (ts : ℚ) (ds : ℕ → ℚ) (js : ℕ → List ℚ) (st : LoopState),
       st.terminated = false →
       (∀ j, j < cfg.actionRepeat → ¬ ds j ≤ cfg.targetDistMin) →
       st.counter + cfg.actionRepeat ≤ cfg.maxSteps + 1 →
       (applyAction cfg ts ds js st).1.counter = st.counter + cfg.actionRepeat) ∧
    (∀ (cfg : Config) (ts : ℚ) (ds : ℕ → ℚ) (js : ℕ → List ℚ) (st : LoopState) (k : ℕ),
       st.terminated = false → k < cfg.actionRepeat →
       (∀ j, j < k → ¬ ds j ≤ cfg.targetDistMin) →
       ds k ≤ cfg.targetDistMin →
       st.counter + k ≤ cfg.maxSteps + 1 →
       (applyAction cfg ts ds js st).1.counter = st.counter + k ∧
       (applyAction cfg ts ds js st).1.terminated = true) := by
  constructor
  · intro cfg ts ds js st ht hd hc
    show (applyActionLoop cfg ds js cfg.actionRepeat 0
        ⟨mapActionVal (rescale1 (-1) 1) st.act, st.handPos, st.handOrn, st.terminated,
          st.counter⟩).1.counter = st.counter + cfg.actionRepeat
    exact (loop_noterm cfg ds js cfg.actionRepeat 0
      ⟨mapActionVal (rescale1 (-1) 1) st.act, st.handPos, st.handOrn, st.terminated,
        st.counter⟩
      ht (by intro j hj; have h3 := hd j hj; simpa using h3) hc).1
  · intro cfg ts ds js st k ht hkr hdlt hdk hc
    have h := loop_term cfg ds js k cfg.actionRepeat 0
      ⟨mapActionVal (rescale1 (-1) 1) st.act, st.handPos, st.handOrn, st.terminated,
        st.counter⟩
      ht hkr
      (by intro j hj; have h3 := hdlt j hj; simpa using h3)
      (by simpa using hdk) hc
    exact ⟨h.1, h.2⟩

/-- Witness for the step-counter theorem: two repeats with the object never
within the threshold raise the counter from 0 to 2. -/
theorem step_counter_per_repeat_witness :
    (applyAction ⟨2, 5, false, 3 / 100, unitBox, unitBox⟩ 0 (fun _ => 1) (fun _ => [])
        ⟨.ik3 ⟨1, 0, 0⟩, ⟨0, 0, 0⟩, ⟨0, 0, 0⟩, false, 0⟩).1.counter = 0 + 2 :=
  step_counter_per_repeat.1 ⟨2, 5, false, 3 / 100, unitBox, unitBox⟩ 0 (fun _ => 1)
    (fun _ => []) ⟨.ik3 ⟨1, 0, 0⟩, ⟨0, 0, 0⟩, ⟨0, 0, 0⟩, false, 0⟩ rfl
    (by intro j hj; show ¬ (1 : ℚ) ≤ 3 / 100; norm_num)
    (by show 0 + 2 ≤ 5 + 1; omega)

/-- C4 counterexample: under inverse kinematics without orientation control,
with normalized action [1,0,0] and two sub-step repeats inside a wide
workspace and with no termination, the final hand x-position is
0.005 + 0.005^2 = 201/40000, not the 2·0.005 = 0.01 the claim requires:
the in-place rescaling compounds, so the second repeat adds 0.005^2, not
0.005. -/
theorem ik_delta_compounds_cex :
    (applyAction ⟨2, 5, false, 3 / 100, unitBox, unitBox⟩ 0 (fun _ => 1) (fun _ => [])
        ⟨.ik3 ⟨1, 0, 0⟩, ⟨0, 0, 0⟩, ⟨0, 0, 0⟩, false, 0⟩).1.handPos.x = 201 / 40000 ∧
    (201 / 40000 : ℚ) ≠ 2 * (1 / 200) := by
  constructor
  · show ((applyActionLoop ⟨2, 5, false, 3 / 100, unitBox, unitBox⟩ (fun _ => 1)
        (fun _ => []) (Nat.succ (Nat.succ 0)) 0
        ⟨mapActionVal (rescale1 (-1) 1) (ActionVal.ik3 ⟨1, 0, 0⟩), ⟨0, 0, 0⟩, ⟨0, 0, 0⟩,
          false, 0⟩).1).handPos.x = 201 / 40000
    rw [mapActionVal_rescale_sym]
    norm_num [applyActionLoop, repeatBody, termination, clipV, clip, Vec3.smul, Vec3.add,
      unitBox, min_def, max_def, decide_eq_true_eq, Bool.false_or]
  · norm_num

/-- C4 (amended): under inverse kinematics without orientation control, the
scaling by 0.005 is applied in place to the persisted action array on every
repeat, so the action compounds: after r repeats without termination the
persisted action equals 0.005^r times the original normalized action, and
the next repeat adds 0.005^(r+1) times the original action — not 0.005 times
it — to the persisted hand position before clipping. -/
theorem ik_delta_per_repeat :
    ∀ (cfg : Config) (ds : ℕ → ℚ) (js : ℕ → List ℚ) (st : LoopState) (a : Vec3) (r : ℕ),
      st.act = .ik3 a → st.terminated = false →
      (∀ j, j < r → ¬ ds j ≤ cfg.targetDistMin) →
      st.counter + r ≤ cfg.maxSteps + 1 →
      (applyActionLoop cfg ds js r 0 st).1.act = .ik3 (Vec3.smul ((1 / 200) ^ r) a) ∧
      ∀ (js2 : List ℚ) (d : ℚ),
        (repeatBody cfg js2 d (applyActionLoop cfg ds js r 0 st).1).1.handPos =
          clipV cfg.ws (Vec3.add (applyActionLoop cfg ds js r 0 st).1.handPos
            (Vec3.smul ((1 / 200) ^ (r + 1)) a)) := by
  intro cfg ds js st a r ha ht hd hc
  have h1 := loop_act_ik3 cfg ds js r 0 st a ha ht
    (by intro j hj; have h3 := hd j hj; simpa using h3) hc
  refine ⟨h1, ?_⟩
  intro js2 d
  rw [repeatBody_ik3_handPos cfg js2 d _ _ h1]
  rw [Vec3.smul_smul]
  have h5 : (1 / 200 : ℚ) * (1 / 200) ^ r = (1 / 200) ^ (r + 1) := by
    rw [pow_succ]
    ring
  rw [h5]

/-- Witness for the compounding-delta theorem at r = 1: after one repeat the
persisted action is 0.005·[1,0,0] and the second repeat adds 0.005^2·[1,0,0]
before clipping. -/
theorem ik_delta_per_repeat_witness :
    (applyActionLoop ⟨2, 5, false, 3 / 100, unitBox, unitBox⟩ (fun _ => 1) (fun _ => []) 1 0
        ⟨.ik3 ⟨1, 0, 0⟩, ⟨0, 0, 0⟩, ⟨0, 0, 0⟩, false, 0⟩).1.act =
      .ik3 (Vec3.smul ((1 / 200) ^ 1) ⟨1, 0, 0⟩) ∧
    (repeatBody ⟨2, 5, false, 3 / 100, unitBox, unitBox⟩ [] 1
        (applyActionLoop ⟨2, 5, false, 3 / 100, unitBox, unitBox⟩ (fun _ => 1) (fun _ => [])
          1 0 ⟨.ik3 ⟨1, 0, 0⟩, ⟨0, 0, 0⟩, ⟨0, 0, 0⟩, false, 0⟩).1).1.handPos =
      clipV unitBox (Vec3.add
        (applyActionLoop ⟨2, 5, false, 3 / 100, unitBox, unitBox⟩ (fun _ => 1) (fun _ => [])
          1 0 ⟨.ik3 ⟨1, 0, 0⟩, ⟨0, 0, 0⟩, ⟨0, 0, 0⟩, false, 0⟩).1.handPos
        (Vec3.smul ((1 / 200) ^ (1 + 1)) ⟨1, 0, 0⟩)) := by
  have h := ik_delta_per_repeat ⟨2, 5, false, 3 / 100, unitBox, unitBox⟩ (fun _ => 1)
    (fun _ => []) ⟨.ik3 ⟨1, 0, 0⟩, ⟨0, 0, 0⟩, ⟨0, 0, 0⟩, false, 0⟩ ⟨1, 0, 0⟩ 1 rfl rfl
    (by intro j hj; show ¬ (1 : ℚ) ≤ 3 / 100; norm_num)
    (by show 0 + 1 ≤ 5 + 1; omega)
  exact ⟨h.1, h.2 [] 1⟩

/-- C5 counterexample: in a headless configuration (renders = false) a single
sub-step repeat of apply_action still performs a wall-clock sleep of one
simulation time step — the time.sleep(self._time_step) call in the repeat
loop is unconditional. -/
theorem headless_sleep_cex :
    (⟨1, 5, false, 3 / 100, unitBox, unitBox⟩ : Config).renders = false ∧
    Event.sleep timeStep ∈
      (applyAction ⟨1, 5, false, 3 / 100, unitBox, unitBox⟩ 0 (fun _ => 1) (fun _ => [])
        ⟨.ik3 ⟨1, 0, 0⟩, ⟨0, 0, 0⟩, ⟨0, 0, 0⟩, false, 0⟩).2 := by
  refine ⟨rfl, ?_⟩
  obtain ⟨tgt, hev⟩ := repeatBody_events ⟨1, 5, false, 3 / 100, unitBox, unitBox⟩ [] 1
      ⟨mapActionVal (rescale1 (-1) 1) (ActionVal.ik3 ⟨1, 0, 0⟩), ⟨0, 0, 0⟩, ⟨0, 0, 0⟩,
        false, 0⟩
  show Event.sleep timeStep ∈
      (applyActionLoop ⟨1, 5, false, 3 / 100, unitBox, unitBox⟩ (fun _ => 1) (fun _ => [])
        (Nat.succ 0) 0
        ⟨mapActionVal (rescale1 (-1) 1) (ActionVal.ik3 ⟨1, 0, 0⟩), ⟨0, 0, 0⟩, ⟨0, 0, 0⟩,
          false, 0⟩).2
  simp only [applyActionLoop]
  cases hdone : (repeatBody ⟨1, 5, false, 3 / 100, unitBox, unitBox⟩ [] 1
      ⟨mapActionVal (rescale1 (-1) 1) (ActionVal.ik3 ⟨1, 0, 0⟩), ⟨0, 0, 0⟩, ⟨0, 0, 0⟩,
        false, 0⟩).2.1
  · simp only [Bool.false_eq_true, if_false, hev, applyActionLoop]
    simp
  · simp only [if_true, hev]
    simp

/-- C5 (amended): apply_action performs a wall-clock sleep of one simulation
time step on every executed sub-step repeat regardless of the render mode
(in a headless run the sleeps are exactly one per physics step); the
additional render-pacing sleep at the start of the call occurs only when
renders is true and the computed remaining frame time is positive. -/
theorem sleep_per_repeat :
    (∀ (cfg : Config) (ts : ℚ) (ds : ℕ → ℚ) (js : ℕ → List ℚ) (st : LoopState),
       cfg.renders = false →
       (applyAction cfg ts ds js st).2.filter Event.isSleep =
         List.replicate ((applyAction cfg ts ds js st).2.filter Event.isSimStep).length
           (Event.sleep timeStep)) ∧
    (∀ (cfg : Config) (ts : ℚ) (ds : ℕ → ℚ) (js : ℕ → List ℚ) (st : LoopState),
       cfg.renders = true → 0 < (cfg.actionRepeat : ℚ) * timeStep - ts →
       (applyAction cfg ts ds js st).2.head? =
         some (Event.sleep ((cfg.actionRepeat : ℚ) * timeStep - ts))) := by
  constructor
  · intro cfg ts ds js st hr
    simp only [applyAction, hr, Bool.false_eq_true, if_false, List.nil_append]
    exact loop_sleep_events cfg ds js cfg.actionRepeat 0 _
  · intro cfg ts ds js st hr hpos
    simp only [applyAction, hr, if_true, if_pos hpos, List.cons_append, List.head?_cons]

/-- Witness for the per-repeat sleep theorem at a concrete headless
configuration. -/
theorem sleep_per_repeat_witness :
    (applyAction ⟨1, 5, false, 3 / 100, unitBox, unitBox⟩ 0 (fun _ => 1) (fun _ => [])
        ⟨.ik3 ⟨1, 0, 0⟩, ⟨0, 0, 0⟩, ⟨0, 0, 0⟩, false, 0⟩).2.filter Event.isSleep =
      List.replicate
        ((applyAction ⟨1, 5, false, 3 / 100, unitBox, unitBox⟩ 0 (fun _ => 1) (fun _ => [])
            ⟨.ik3 ⟨1, 0, 0⟩, ⟨0, 0, 0⟩, ⟨0, 0, 0⟩, false, 0⟩).2.filter
          Event.isSimStep).length
        (Event.sleep timeStep) :=
  sleep_per_repeat.1 ⟨1, 5, false, 3 / 100, unitBox, unitBox⟩ 0 (fun _ => 1) (fun _ => [])
    ⟨.ik3 ⟨1, 0, 0⟩, ⟨0, 0, 0⟩, ⟨0, 0, 0⟩, false, 0⟩ rfl

/-- C8: under inverse-kinematics control, after any apply_action call with at
least one sub-step repeat the persisted hand position lies within the
robot's (well-formed) per-axis workspace limits, and when orientation is
controlled the persisted hand orientation additionally lies within the
(well-formed) per-axis rotation limits — for every action, every repeat
count, and every behavior of the external world. -/
theorem applyAction_workspace_invariant :
    (∀ (cfg : Config) (ts : ℚ) (ds : ℕ → ℚ) (js : ℕ → List ℚ) (st : LoopState) (a : Vec3),
       cfg.ws.wf → 1 ≤ cfg.actionRepeat → st.act = .ik3 a →
       cfg.ws.mem (applyAction cfg ts ds js st).1.handPos) ∧
    (∀ (cfg : Config) (ts : ℚ) (ds : ℕ → ℚ) (js : ℕ → List ℚ) (st : LoopState) (ap ao : Vec3),
       cfg.ws.wf → cfg.rotLim.wf → 1 ≤ cfg.actionRepeat → st.act = .ik6 ap ao →
       cfg.ws.mem (applyAction cfg ts ds js st).1.handPos ∧
       cfg.rotLim.mem (applyAction cfg ts ds js st).1.handOrn) := by
  constructor
  · intro cfg ts ds js st a hws hR ha
    obtain ⟨r, hr⟩ : ∃ r, cfg.actionRepeat = r + 1 := ⟨cfg.actionRepeat - 1, by omega⟩
    have hact : (⟨mapActionVal (rescale1 (-1) 1) st.act, st.handPos, st.handOrn,
        st.terminated, st.counter⟩ : LoopState).act =
        .ik3 ⟨rescale1 (-1) 1 a.x, rescale1 (-1) 1 a.y, rescale1 (-1) 1 a.z⟩ := by
      show mapActionVal (rescale1 (-1) 1) st.act = _
      rw [ha]
      rfl
    have h := loop_mem_ik3_run cfg ds js hws r 0
      ⟨mapActionVal (rescale1 (-1) 1) st.act, st.handPos, st.handOrn, st.terminated,
        st.counter⟩ _ hact
    show cfg.ws.mem (applyActionLoop cfg ds js cfg.actionRepeat 0
      ⟨mapActionVal (rescale1 (-1) 1) st.act, st.handPos, st.handOrn, st.terminated,
        st.counter⟩).1.handPos
    rw [hr]
    exact h
  · intro cfg ts ds js st ap ao hws hrot hR ha
    obtain ⟨r, hr⟩ : ∃ r, cfg.actionRepeat = r + 1 := ⟨cfg.actionRepeat - 1, by omega⟩
    have hact : (⟨mapActionVal (rescale1 (-1) 1) st.act, st.handPos, st.handOrn,
        st.terminated, st.counter⟩ : LoopState).act =
        .ik6 ⟨rescale1 (-1) 1 ap.x, rescale1 (-1) 1 ap.y, rescale1 (-1) 1 ap.z⟩
          ⟨rescale1 (-1) 1 ao.x, rescale1 (-1) 1 ao.y, rescale1 (-1) 1 ao.z⟩ := by
      show mapActionVal (rescale1 (-1) 1) st.act = _
      rw [ha]
      rfl
    have h := loop_mem_ik6_run cfg ds js hws hrot r 0
      ⟨mapActionVal (rescale1 (-1) 1) st.act, st.handPos, st.handOrn, st.terminated,
        st.counter⟩ _ _ hact
    constructor
    · show cfg.ws.mem (applyActionLoop cfg ds js cfg.actionRepeat 0
        ⟨mapActionVal (rescale1 (-1) 1) st.act, st.handPos, st.handOrn, st.terminated,
          st.counter⟩).1.handPos
      rw [hr]
      exact h.1
    · show cfg.rotLim.mem (applyActionLoop cfg ds js cfg.actionRepeat 0
        ⟨mapActionVal (rescale1 (-1) 1) st.act, st.handPos, st.handOrn, st.terminated,
          st.counter⟩).1.handOrn
      rw [hr]
      exact h.2

/-- Witness for the workspace invariant: a hand that starts outside the unit
workspace box ends inside it after one repeat, in both control modes. -/
theorem applyAction_workspace_invariant_witness :
    unitBox.wf ∧
    (⟨1, 5, false, 3 / 100, unitBox, unitBox⟩ : Config).ws.mem
      (applyAction ⟨1, 5, false, 3 / 100, unitBox, unitBox⟩ 0 (fun _ => 1) (fun _ => [])
        ⟨.ik3 ⟨1, 0, 0⟩, ⟨2, 2, 2⟩, ⟨0, 0, 0⟩, false, 0⟩).1.handPos ∧
    (⟨1, 5, false, 3 / 100, unitBox, unitBox⟩ : Config).rotLim.mem
      (applyAction ⟨1, 5, false, 3 / 100, unitBox, unitBox⟩ 0 (fun _ => 1) (fun _ => [])
        ⟨.ik6 ⟨1, 0, 0⟩ ⟨0, 1, 0⟩, ⟨2, 2, 2⟩, ⟨-3, 0, 3⟩, false, 0⟩).1.handOrn :=
  ⟨by norm_num [Box3.wf, Interval.wf, unitBox],
   applyAction_workspace_invariant.1 ⟨1, 5, false, 3 / 100, unitBox, unitBox⟩ 0 (fun _ => 1)
     (fun _ => []) ⟨.ik3 ⟨1, 0, 0⟩, ⟨2, 2, 2⟩, ⟨0, 0, 0⟩, false, 0⟩ ⟨1, 0, 0⟩
     (by norm_num [Box3.wf, Interval.wf, unitBox]) (by norm_num) rfl,
   (applyAction_workspace_invariant.2 ⟨1, 5, false, 3 / 100, unitBox, unitBox⟩ 0 (fun _ => 1)
     (fun _ => []) ⟨.ik6 ⟨1, 0, 0⟩ ⟨0, 1, 0⟩, ⟨2, 2, 2⟩, ⟨-3, 0, 3⟩, false, 0⟩ ⟨1, 0, 0⟩
     ⟨0, 1, 0⟩ (by norm_num [Box3.wf, Interval.wf, unitBox])
     (by norm_num [Box3.wf, Interval.wf, unitBox]) (by norm_num) rfl).2⟩

/-- Modelled from the spec: `np.random.normal(0, sigma, 2)` draws two values
from the process-global NumPy random stream, not from the environment's own
seeded generator.  The global stream is modelled as a list of pending
standard-normal raw draws; a draw with standard deviation sigma is sigma
times the next raw draw, and the stream advances past the consumed draws. -/
def np_random_normal2 (sigma : ℚ) (g : List ℚ) : (ℚ × ℚ) × List ℚ :=
  ((sigma * g.headD 0, sigma * (g.drop 1).headD 0), g.drop 2)

/-- Shallow embedding of `sample_tg_pose` (source lines 375-402): the
workspace x-limits are narrowed by a 0.07 margin; the default target is the
object position offset by +0.05 in x and y with z unchanged; a positive
noise standard deviation replaces the x and y offsets by Gaussian draws from
the process-global NumPy stream `g`; x and y (but not z) are then clipped
with np.clip.  Returns the pose together with the advanced global stream. -/
def sample_tg_pose (tgPoseRndStd : ℚ) (ws : Box3) (objPos : Vec3) (g : List ℚ) :
    Vec3 × List ℚ :=
  let xMin := ws.x.lo + 7 / 100
  let xMax := ws.x.hi - 7 / 100
  let yMin := ws.y.lo
  let yMax := ws.y.hi
  let px := objPos.x + 1 / 20
  let py := objPos.y + 1 / 20
  let pz := objPos.z
  if 0 < tgPoseRndStd then
    let out := np_random_normal2 tgPoseRndStd g
    let px2 := objPos.x + out.1.1
    let py2 := objPos.y + out.1.2
    (⟨clip ⟨xMin, xMax⟩ px2, clip ⟨yMin, yMax⟩ py2, pz⟩, out.2)
  else
    (⟨clip ⟨xMin, xMax⟩ px, clip ⟨yMin, yMax⟩ py, pz⟩, g)

/-- The random state installed by `seed` (source lines 284-288): the
environment keeps a generator created by `gym.utils.seeding.np_random(seed)`
in `self.np_random` and forwards the seed to the world and robot
collaborators. -/
structure EnvRand where
  npRandomSeed : Option ℕ
  worldSeed : Option ℕ
  robotSeed : Option ℕ
deriving DecidableEq, Repr

/-- Shallow embedding of `seed`. -/
def seedEnv (s : Option ℕ) : EnvRand := ⟨s, s, s⟩

/-- `sample_tg_pose` as invoked on a seeded environment: the environment's
seeded random state is not consulted — the noise comes from the
process-global stream `g` via `np.random.normal`. -/
def sample_tg_pose_env (_er : EnvRand) (tgPoseRndStd : ℚ) (ws : Box3) (objPos : Vec3)
    (g : List ℚ) : Vec3 × List ℚ :=
  sample_tg_pose tgPoseRndStd ws objPos g

/-- C7: with zero noise standard deviation the target sampler returns the
object position offset by +0.05 in x and y with z unchanged (z is not
clipped), x clipped into [x_min + 0.07, x_max − 0.07] and y into
[y_min, y_max], for every object position and workspace, independently of
the global random stream, which is left untouched; in particular an object
at the origin inside a wide-enough workspace yields (0.05, 0.05, 0). -/
theorem sample_tg_pose_zero_std :
    (∀ (ws : Box3) (objPos : Vec3) (g : List ℚ),
       sample_tg_pose 0 ws objPos g =
         (⟨clip ⟨ws.x.lo + 7 / 100, ws.x.hi - 7 / 100⟩ (objPos.x + 1 / 20),
           clip ⟨ws.y.lo, ws.y.hi⟩ (objPos.y + 1 / 20), objPos.z⟩, g)) ∧
    (sample_tg_pose 0 ⟨⟨-(3 / 10), 3 / 10⟩, ⟨-(3 / 10), 3 / 10⟩, ⟨0, 1⟩⟩
        ⟨0, 0, 0⟩ []).1 = ⟨1 / 20, 1 / 20, 0⟩ := by
  constructor
  · intro ws objPos g
    simp [sample_tg_pose]
  · norm_num [sample_tg_pose, clip, min_def, max_def]

/-- C6 (code evaluation): `seed()` installs a seeded generator and forwards
the seed to the collaborators, but `sample_tg_pose` draws its noise from the
process-global NumPy stream and ignores the environment generator entirely:
the sampled target is invariant under the environment seed, and two
identically seeded environments sampling in sequence from the shared global
stream (standard deviation 0.2, object at the origin, wide workspace) obtain
different targets. -/
theorem sample_tg_pose_global_stream :
    (∀ (s1 s2 : Option ℕ) (tgStd : ℚ) (ws : Box3) (objPos : Vec3) (g : List ℚ),
       sample_tg_pose_env (seedEnv s1) tgStd ws objPos g =
         sample_tg_pose_env (seedEnv s2) tgStd ws objPos g) ∧
    (sample_tg_pose_env (seedEnv (some 42)) (1 / 5) ⟨⟨-10, 10⟩, ⟨-10, 10⟩, ⟨0, 1⟩⟩
        ⟨0, 0, 0⟩ [1, 2, 3, 4]).1 ≠
      (sample_tg_pose_env (seedEnv (some 42)) (1 / 5) ⟨⟨-10, 10⟩, ⟨-10, 10⟩, ⟨0, 1⟩⟩
        ⟨0, 0, 0⟩
        (sample_tg_pose_env (seedEnv (some 42)) (1 / 5) ⟨⟨-10, 10⟩, ⟨-10, 10⟩, ⟨0, 1⟩⟩
          ⟨0, 0, 0⟩ [1, 2, 3, 4]).2).1 := by
  constructor
  · intro s1 s2 tgStd ws objPos g
    rfl
  · norm_num [sample_tg_pose_env, sample_tg_pose, np_random_normal2, clip, min_def,
      max_def, Vec3.mk.injEq]

/-- The IEEE-754 double value of the `m.pi` constant of the source. -/
def mPi : ℚ := 884279719003555 / 281474976710656

/-- Shallow embedding of `get_extended_observation` (source lines 166-203).
The robot and world observations and their bounds lists come from the
collaborators; the hand-frame object pose (3 position values and 3 Euler
angles) is computed by the PyBullet transform utilities (invertTransform,
multiplyTransforms, getEulerFromQuaternion) from those observations and is
passed in as an input; the target pose is `self._tg_pose`.  Returns the flat
observation vector and the parallel bounds list: robot observation, world
observation, hand-frame object position with bounds [-0.5, 0.5], hand-frame
Euler angles with bounds [0, 2π], then the 3-value target pose reusing the
first three world bounds. -/
def get_extended_observation (robotObs : List ℚ) (robotObsLim : List Interval)
    (worldObs : List ℚ) (worldObsLim : List Interval)
    (objPosInHand objEulerInHand tgPose : Vec3) : List ℚ × List Interval :=
  let obs := robotObs ++ worldObs
    ++ [objPosInHand.x, objPosInHand.y, objPosInHand.z]
    ++ [objEulerInHand.x, objEulerInHand.y, objEulerInHand.z]
    ++ [tgPose.x, tgPose.y, tgPose.z]
  let lim := robotObsLim ++ worldObsLim
    ++ [⟨-(1 / 2), 1 / 2⟩, ⟨-(1 / 2), 1 / 2⟩, ⟨-(1 / 2), 1 / 2⟩]
    ++ [⟨0, 2 * mPi⟩, ⟨0, 2 * mPi⟩, ⟨0, 2 * mPi⟩]
    ++ worldObsLim.take 3
  (obs, lim)

/-- C9: whenever the collaborators honor their contracts (observation vector
and bounds list of equal length, world bounds with at least the 3 position
entries), the built observation vector and bounds list have equal length;
that length is robot-length + world-length + 9, hence identical across
repeated calls of a fixed configuration; and the vector is ordered as robot
observation, world observation, hand-frame object position (bounds
[-0.5, 0.5] per axis), hand-frame Euler angles (bounds [0, 2π] per axis),
then the 3-value target pose reusing the world's position bounds. -/
theorem get_extended_observation_spec :
    ∀ (robotObs : List ℚ) (robotObsLim : List Interval) (worldObs : List ℚ)
      (worldObsLim : List Interval) (p e tg : Vec3),
      robotObs.length = robotObsLim.length →
      worldObs.length = worldObsLim.length →
      3 ≤ worldObsLim.length →
      ((get_extended_observation robotObs robotObsLim worldObs worldObsLim p e tg).1.length =
        (get_extended_observation robotObs robotObsLim worldObs worldObsLim p e tg).2.length) ∧
      ((get_extended_observation robotObs robotObsLim worldObs worldObsLim p e tg).1.length =
        robotObs.length + worldObs.length + 9) ∧
      ((get_extended_observation robotObs robotObsLim worldObs worldObsLim p e tg).1 =
        robotObs ++ worldObs ++ [p.x, p.y, p.z] ++ [e.x, e.y, e.z] ++ [tg.x, tg.y, tg.z]) ∧
      ((get_extended_observation robotObs robotObsLim worldObs worldObsLim p e tg).2 =
        robotObsLim ++ worldObsLim
          ++ [⟨-(1 / 2), 1 / 2⟩, ⟨-(1 / 2), 1 / 2⟩, ⟨-(1 / 2), 1 / 2⟩]
          ++ [⟨0, 2 * mPi⟩, ⟨0, 2 * mPi⟩, ⟨0, 2 * mPi⟩]
          ++ worldObsLim.take 3) := by
  intro robotObs robotObsLim worldObs worldObsLim p e tg h1 h2 h3
  refine ⟨?_, ?_, rfl, rfl⟩
  · simp only [get_extended_observation, List.length_append, List.length_cons,
      List.length_nil, List.length_take]
    omega
  · simp only [get_extended_observation, List.length_append, List.length_cons,
      List.length_nil]

/-- Witness for the observation-builder theorem at a concrete 6-element robot
observation and 6-element world observation. -/
theorem get_extended_observation_spec_witness :
    ((get_extended_observation [1, 2, 3, 4, 5, 6] (List.replicate 6 ⟨0, 1⟩)
        [0, 0, 0, 0, 0, 0] (List.replicate 6 ⟨0, 1⟩)
        ⟨0, 0, 0⟩ ⟨0, 0, 0⟩ ⟨0, 0, 0⟩).1.length =
      (get_extended_observation [1, 2, 3, 4, 5, 6] (List.replicate 6 ⟨0, 1⟩)
        [0, 0, 0, 0, 0, 0] (List.replicate 6 ⟨0, 1⟩)
        ⟨0, 0, 0⟩ ⟨0, 0, 0⟩ ⟨0, 0, 0⟩).2.length) ∧
    ((get_extended_observation [1, 2, 3, 4, 5, 6] (List.replicate 6 ⟨0, 1⟩)
        [0, 0, 0, 0, 0, 0] (List.replicate 6 ⟨0, 1⟩)
        ⟨0, 0, 0⟩ ⟨0, 0, 0⟩ ⟨0, 0, 0⟩).1.length = 6 + 6 + 9) := by
  have h := get_extended_observation_spec [1, 2, 3, 4, 5, 6] (List.replicate 6 ⟨0, 1⟩)
    [0, 0, 0, 0, 0, 0] (List.replicate 6 ⟨0, 1⟩) ⟨0, 0, 0⟩ ⟨0, 0, 0⟩ ⟨0, 0, 0⟩
    (by simp) (by simp) (by simp)
  refine ⟨h.1, ?_⟩
  rw [h.2.1]
  simp
